import Mathlib

/-!
Verification development for the ORCID API client library.

The definitions below are a shallow embedding of the Go source:
* `Orcid.doRequest` embeds `Client.doRequest` (src/orcid/client.go, lines
  123-181): bearer-token check, one rate-limiter permit wait, and the
  retry loop with quadratic backoff and status classification.
* `Orcid.newClient` embeds the option-application part of `NewClient`
  (lines 50-69) for the fields the claims mention.
* `Orcid.buildSearchQueryParams` embeds the query-parameter construction
  of `Client.buildSearchURL` (lines 514-531).
* `Orcid.SearchIterator.next` embeds `SearchIterator.Next`
  (src/unnamed/part_000, lines 250-291) together with its accessors.
* `Orcid.ParseOrcidID` / `Orcid.FormatOrcidID` embed the identifier
  utilities (src/unnamed/part_000, lines 344-368) over lists of UTF-8
  bytes, matching Go's byte-based `len`, slicing, `Split`, `HasPrefix`
  and `ReplaceAll`; `strings.TrimSpace` is modelled exactly by
  stripping the finite set of Unicode White_Space encodings from the
  ends, and `strings.ToUpper` byte-wise on the ASCII letters (its
  exact behaviour on ASCII data).

Machine integers from Go (`int`) are modelled as `Int`; real time does
not appear: waits are recorded as events carrying their programmed
duration in seconds, and the cancellation signal is modelled as a
predicate telling, for each cancellable wait of one logical call,
whether the signal fires during that wait.
-/

namespace Orcid

/-- Outcome of one physical HTTP attempt as seen by `doRequest`:
either a transport-level failure (`httpClient.Do` returned an error)
or a response with a status code and body. -/
inductive TransportOutcome where
  | connError
  | resp (status : Nat) (body : String)
deriving DecidableEq, Repr

/-- The cause recorded in `lastErr` by the retry loop: a connection
error, or a retryable HTTP status (the Go code stores an error value
mentioning the status). -/
inductive Cause where
  | conn
  | http (status : Nat)
deriving DecidableEq, Repr

/-- Errors `doRequest` can return, mirroring the `fmt.Errorf` sites of
the source: missing bearer token (line 126), context cancellation
(lines 133 and 144), a terminal non-retryable status embedding status
and raw body (line 177), and retry exhaustion wrapping the last cause
(line 180). -/
inductive ReqError where
  | missingToken
  | cancelled
  | terminal (status : Nat) (body : String)
  | exhausted (last : Option Cause)
deriving DecidableEq, Repr

/-- Observable events of one `doRequest` call: waiting for a pacing
permit from the rate limiter, waiting a backoff (recorded with its
programmed duration in seconds), and issuing physical attempt `idx`
(0-based, i.e. the loop variable `attempt`). -/
inductive Ev where
  | permitWait
  | backoffWait (seconds : Nat)
  | attempt (idx : Nat)
deriving DecidableEq, Repr

/-- The retryable-status test of client.go lines 167-169:
429, 408, or any 5xx. -/
def retryableStatus (s : Nat) : Bool :=
  s == 429 || s == 408 || (decide (500 ≤ s) && decide (s < 600))

/-- How the body of the retry loop classifies one transport outcome
(client.go lines 157-177): connection errors and retryable statuses
continue the loop, status 200 returns the response, anything else is a
terminal failure carrying status and body. -/
inductive StepClass where
  | success (status : Nat) (body : String)
  | terminalErr (status : Nat) (body : String)
  | retry (c : Cause)
deriving DecidableEq, Repr

/-- Classification of a transport outcome, read off client.go 157-177. -/
def classify (o : TransportOutcome) : StepClass :=
  match o with
  | .connError => .retry .conn
  | .resp s b =>
    if s = 200 then .success s b
    else if retryableStatus s then .retry (.http s)
    else .terminalErr s b

/-- The last cause of a retryable outcome (what the loop stores in
`lastErr`). -/
def causeOf (o : TransportOutcome) : Cause :=
  match o with
  | .connError => .conn
  | .resp s _ => .http s

/-- `true` when the loop treats the outcome as retryable. -/
def isRetryOut (o : TransportOutcome) : Bool :=
  match classify o with
  | .retry _ => true
  | _ => false

/-- The retry loop of `doRequest` (client.go lines 138-180).
`fuel` is the number of loop iterations still allowed (the Go loop
runs while `attempt <= maxRetries`), `attempt` the loop variable,
`waitIdx` the index of the next cancellable wait (used to consult the
cancellation signal), `lastErr` the accumulated last cause. Returns
the call result paired with the emitted event trace. The
`http.NewRequestWithContext` error path is not modelled: the URLs the
library builds are well-formed, so request construction succeeds. -/
def attemptLoop (transport : Nat → TransportOutcome) (cancel : Nat → Bool) :
    Nat → Nat → Nat → Option Cause → Except ReqError (Nat × String) × List Ev
  | 0, _, _, lastErr => (.error (.exhausted lastErr), [])
  | fuel+1, attempt, waitIdx, lastErr =>
    if 0 < attempt then
      -- backoff of attempt² seconds before every attempt after the first;
      -- the select races the timer against ctx.Done()
      if cancel waitIdx then
        (.error .cancelled, [.backoffWait (attempt * attempt)])
      else
        match classify (transport attempt) with
        | .success s b =>
          (.ok (s, b), [.backoffWait (attempt * attempt), .attempt attempt])
        | .terminalErr s b =>
          (.error (.terminal s b), [.backoffWait (attempt * attempt), .attempt attempt])
        | .retry c =>
          let r := attemptLoop transport cancel fuel (attempt + 1) (waitIdx + 1) (some c)
          (r.1, .backoffWait (attempt * attempt) :: .attempt attempt :: r.2)
    else
      match classify (transport attempt) with
      | .success s b => (.ok (s, b), [.attempt attempt])
      | .terminalErr s b => (.error (.terminal s b), [.attempt attempt])
      | .retry c =>
        let r := attemptLoop transport cancel fuel (attempt + 1) waitIdx (some c)
        (r.1, .attempt attempt :: r.2)

/-- The client fields `doRequest` and the claims depend on.
`hasLimiter` models `rateLimiter != nil`. -/
structure Client where
  maxRetries : Int
  rateLimit : Int
  hasLimiter : Bool
  bearerToken : String
deriving DecidableEq, Repr

/-- `Client.doRequest` (client.go lines 123-181): reject an empty
bearer token before anything else; if a rate limiter exists, wait for
one permit (a wait the cancellation signal can interrupt); then run
the retry loop, whose iteration count is bounded by `maxRetries + 1`. -/
def doRequest (c : Client) (cancel : Nat → Bool) (transport : Nat → TransportOutcome) :
    Except ReqError (Nat × String) × List Ev :=
  if c.bearerToken = "" then (.error .missingToken, [])
  else if c.hasLimiter then
    if cancel 0 then (.error .cancelled, [.permitWait])
    else
      let r := attemptLoop transport cancel (c.maxRetries + 1).toNat 0 1 none
      (r.1, .permitWait :: r.2)
  else
    attemptLoop transport cancel (c.maxRetries + 1).toNat 0 0 none

/-- The client options the claims mention (client.go lines 90-121). -/
inductive ClientOption where
  | withMaxRetries (n : Int)
  | withRateLimit (n : Int)
  | withBearerToken (t : String)

/-- Application of one option to the client under construction.
`WithRateLimit` installs a ticker only for a positive rate and never
removes an existing one (client.go lines 96-103). -/
def applyOption (c : Client) : ClientOption → Client
  | .withMaxRetries n => { c with maxRetries := n }
  | .withRateLimit n =>
    { c with rateLimit := n, hasLimiter := if 0 < n then true else c.hasLimiter }
  | .withBearerToken t => { c with bearerToken := t }

/-- `NewClient` (client.go lines 50-69) restricted to the modelled
fields: defaults, option application, then the limiter is installed
when the final rate is positive. -/
def newClient (opts : List ClientOption) : Client :=
  let c : Client :=
    { maxRetries := 3, rateLimit := 10, hasLimiter := false, bearerToken := "" }
  let c := opts.foldl applyOption c
  if 0 < c.rateLimit then { c with hasLimiter := true } else c

/-- Is an event a physical attempt? -/
def isAttemptEv : Ev → Bool
  | .attempt _ => true
  | _ => false

/-- Is an event a permit wait? -/
def isPermitEv : Ev → Bool
  | .permitWait => true
  | _ => false

/-- Number of physical attempts recorded in a trace. -/
def attemptCount (evs : List Ev) : Nat := evs.countP isAttemptEv

/-- Number of rate-limiter permit waits recorded in a trace. -/
def permitCount (evs : List Ev) : Nat := evs.countP isPermitEv

/-- The duration of a backoff event, if it is one. -/
def backoffSec? : Ev → Option Nat
  | .backoffWait s => some s
  | _ => none

/-- The backoff durations (in seconds) of a trace, in order. -/
def backoffSecs (evs : List Ev) : List Nat := evs.filterMap backoffSec?

/-- The trace of a run of the retry loop that starts at loop variable
`a` and performs `f` further attempts, each preceded by its backoff
when the loop variable is positive. -/
def trailTrace : Nat → Nat → List Ev
  | _, 0 => []
  | a, f+1 =>
    (if 0 < a then [Ev.backoffWait (a * a)] else []) ++ Ev.attempt a :: trailTrace (a + 1) f

/-- The value of `lastErr` after `f` further retryable attempts
starting at loop variable `a`, given the value `le` it had before. -/
def lastCauseAfter (t : Nat → TransportOutcome) (a f : Nat) (le : Option Cause) :
    Option Cause :=
  match f with
  | 0 => le
  | g+1 => some (causeOf (t (a + g)))

example :
    doRequest { maxRetries := 1, rateLimit := 10, hasLimiter := true, bearerToken := "t" }
      (fun _ => false) (fun _ => .resp 500 "oops") =
    (.error (.exhausted (some (.http 500))),
     [.permitWait, .attempt 0, .backoffWait 1, .attempt 1]) := rfl

example :
    doRequest { maxRetries := 3, rateLimit := 0, hasLimiter := false, bearerToken := "t" }
      (fun _ => false) (fun i => if i < 2 then .connError else .resp 200 "ok") =
    (.ok (200, "ok"),
     [.attempt 0, .backoffWait 1, .attempt 1, .backoffWait 4, .attempt 2]) := rfl

/-! ### Lemmas about the retry loop -/

theorem classify_of_retry {o : TransportOutcome} (h : isRetryOut o = true) :
    classify o = .retry (causeOf o) := by
  cases o with
  | connError => rfl
  | resp s b =>
    by_cases h200 : s = 200
    · simp [isRetryOut, classify, h200] at h
    · by_cases hr : retryableStatus s = true
      · simp [classify, causeOf, h200, hr]
      · simp [isRetryOut, classify, h200, hr] at h

theorem attemptCount_trailTrace : ∀ (f a : Nat), attemptCount (trailTrace a f) = f := by
  intro f
  induction f with
  | zero => intro a; simp [trailTrace, attemptCount]
  | succ g ih =>
    intro a
    have hrec : attemptCount (trailTrace (a + 1) g) = g := ih (a + 1)
    by_cases ha : 0 < a
    · simp only [trailTrace, if_pos ha, List.singleton_append]
      simp [attemptCount, List.countP_cons, isAttemptEv,
        show (trailTrace (a + 1) g).countP isAttemptEv = g from hrec]
    · simp only [trailTrace, if_neg ha, List.nil_append]
      simp [attemptCount, List.countP_cons, isAttemptEv,
        show (trailTrace (a + 1) g).countP isAttemptEv = g from hrec]

theorem permitCount_trailTrace : ∀ (f a : Nat), permitCount (trailTrace a f) = 0 := by
  intro f
  induction f with
  | zero => intro a; simp [trailTrace, permitCount]
  | succ g ih =>
    intro a
    have hrec : permitCount (trailTrace (a + 1) g) = 0 := ih (a + 1)
    by_cases ha : 0 < a
    · simp only [trailTrace, if_pos ha, List.singleton_append]
      simp [permitCount, List.countP_cons, isPermitEv,
        show (trailTrace (a + 1) g).countP isPermitEv = 0 from hrec]
    · simp only [trailTrace, if_neg ha, List.nil_append]
      simp [permitCount, List.countP_cons, isPermitEv,
        show (trailTrace (a + 1) g).countP isPermitEv = 0 from hrec]

theorem backoffSecs_trailTrace : ∀ (f a : Nat), 0 < a →
    backoffSecs (trailTrace a f) = (List.range f).map (fun i => (a + i) * (a + i)) := by
  intro f
  induction f with
  | zero => intro a _; simp [trailTrace, backoffSecs]
  | succ g ih =>
    intro a ha
    have h1 : backoffSecs (trailTrace (a + 1) g) =
        (List.range g).map (fun i => (a + 1 + i) * (a + 1 + i)) := ih (a + 1) (by omega)
    have hfun : (fun i => (a + 1 + i) * (a + 1 + i)) =
        (fun i => (a + (i + 1)) * (a + (i + 1))) := by
      funext i; ring_nf
    have ht : trailTrace a (g + 1) =
        Ev.backoffWait (a * a) :: Ev.attempt a :: trailTrace (a + 1) g := by
      simp [trailTrace, ha]
    rw [ht]
    simp only [backoffSecs, List.filterMap_cons, backoffSec?]
    rw [show List.filterMap backoffSec? (trailTrace (a + 1) g) =
        backoffSecs (trailTrace (a + 1) g) from rfl, h1, hfun, List.range_succ_eq_map]
    simp [List.map_map, Function.comp_def]

theorem attemptLoop_exhaust (t : Nat → TransportOutcome) (cancel : Nat → Bool)
    (hc : ∀ i, cancel i = false) :
    ∀ (f a w : Nat) (le : Option Cause),
      (∀ i, isRetryOut (t (a + i)) = true) →
      attemptLoop t cancel f a w le =
        (.error (.exhausted (lastCauseAfter t a f le)), trailTrace a f) := by
  intro f
  induction f with
  | zero => intro a w le _; simp [attemptLoop, lastCauseAfter, trailTrace]
  | succ g ih =>
    intro a w le ht
    have h0 : isRetryOut (t a) = true := by simpa using ht 0
    have hcl : classify (t a) = .retry (causeOf (t a)) := classify_of_retry h0
    have hrec := ih (a + 1) (w + 1) (some (causeOf (t a)))
      (fun i => by have := ht (i + 1); rwa [show a + (i + 1) = a + 1 + i by omega] at this)
    have hrec' := ih (a + 1) w (some (causeOf (t a)))
      (fun i => by have := ht (i + 1); rwa [show a + (i + 1) = a + 1 + i by omega] at this)
    have hlast : lastCauseAfter t (a + 1) g (some (causeOf (t a))) =
        lastCauseAfter t a (g + 1) le := by
      cases g with
      | zero => simp [lastCauseAfter]
      | succ g' => simp [lastCauseAfter, show a + 1 + g' = a + (g' + 1) by omega]
    by_cases ha : 0 < a
    · simp only [attemptLoop, if_pos ha, hc w, Bool.false_eq_true, if_neg, hcl]
      simp [hrec, hlast, trailTrace, ha]
    · simp only [attemptLoop, if_neg ha, hcl]
      simp [hrec', hlast, trailTrace, ha]

theorem attemptLoop_success (t : Nat → TransportOutcome) (cancel : Nat → Bool)
    (hc : ∀ i, cancel i = false) :
    ∀ (k f a w : Nat) (le : Option Cause) (b : String),
      k < f →
      (∀ i, i < k → isRetryOut (t (a + i)) = true) →
      t (a + k) = .resp 200 b →
      attemptLoop t cancel f a w le = (.ok (200, b), trailTrace a (k + 1)) := by
  intro k
  induction k with
  | zero =>
    intro f a w le b hkf hpre hsucc
    obtain ⟨f', rfl⟩ : ∃ f', f = f' + 1 := ⟨f - 1, by omega⟩
    have hta : t a = .resp 200 b := by simpa using hsucc
    have hcl : classify (t a) = .success 200 b := by simp [classify, hta]
    by_cases ha : 0 < a
    · simp only [attemptLoop, if_pos ha, hc w, Bool.false_eq_true, if_neg, hcl]
      simp [trailTrace, ha]
    · simp only [attemptLoop, if_neg ha, hcl]
      simp [trailTrace, ha]
  | succ k ih =>
    intro f a w le b hkf hpre hsucc
    obtain ⟨f', rfl⟩ : ∃ f', f = f' + 1 := ⟨f - 1, by omega⟩
    have h0 : isRetryOut (t a) = true := by simpa using hpre 0 (by omega)
    have hcl : classify (t a) = .retry (causeOf (t a)) := classify_of_retry h0
    have hpre' : ∀ i, i < k → isRetryOut (t (a + 1 + i)) = true := fun i hi => by
      have := hpre (i + 1) (by omega)
      rwa [show a + (i + 1) = a + 1 + i by omega] at this
    have hsucc' : t (a + 1 + k) = .resp 200 b := by
      rwa [show a + 1 + k = a + (k + 1) by omega]
    have hrec := ih f' (a + 1) (w + 1) (some (causeOf (t a))) b (by omega) hpre' hsucc'
    have hrec' := ih f' (a + 1) w (some (causeOf (t a))) b (by omega) hpre' hsucc'
    by_cases ha : 0 < a
    · simp only [attemptLoop, if_pos ha, hc w, Bool.false_eq_true, if_neg, hcl]
      simp [hrec, trailTrace, ha]
    · simp only [attemptLoop, if_neg ha, hcl]
      simp [hrec', trailTrace, ha]

theorem attemptLoop_terminal_first (t : Nat → TransportOutcome) (cancel : Nat → Bool)
    (f w : Nat) (le : Option Cause) (s : Nat) (b : String)
    (h : classify (t 0) = .terminalErr s b) :
    attemptLoop t cancel (f + 1) 0 w le = (.error (.terminal s b), [.attempt 0]) := by
  simp [attemptLoop, h]

/-- Behaviour of the retry loop when the cancellation signal fires at
wait index `w0 + j`: entered at loop variable `x ≥ 1` with wait index
`w0 + x - 1` (the invariant the loop maintains), and enough fuel, it
returns `Cancelled` after issuing attempts `x .. j` only. -/
theorem attemptLoop_cancelled (t : Nat → TransportOutcome) (w0 j : Nat)
    (ht : ∀ i, isRetryOut (t i) = true) :
    ∀ (f x : Nat) (le : Option Cause), 1 ≤ x → x ≤ j + 1 → j + 2 - x ≤ f →
      (attemptLoop t (fun i => decide (j + w0 ≤ i)) f x (w0 + x - 1) le).1 =
        .error .cancelled ∧
      attemptCount
        (attemptLoop t (fun i => decide (j + w0 ≤ i)) f x (w0 + x - 1) le).2 =
        j + 1 - x := by
  intro f
  induction f with
  | zero => intro x le hx hxj hfuel; omega
  | succ g ih =>
    intro x le hx hxj hfuel
    by_cases hxeq : x = j + 1
    · subst hxeq
      have hfire : decide (j + w0 ≤ w0 + (j + 1) - 1) = true := by
        simp; omega
      simp only [attemptLoop, if_pos (show 0 < j + 1 by omega), hfire, if_pos]
      simp [attemptCount, List.countP_cons, isAttemptEv]
    · have hlt : x < j + 1 := by omega
      have hfire : decide (j + w0 ≤ w0 + x - 1) = false := by
        simp; omega
      have hcl : classify (t x) = .retry (causeOf (t x)) := classify_of_retry (ht x)
      have hrec := ih (x + 1) (some (causeOf (t x))) (by omega) (by omega) (by omega)
      rw [show w0 + (x + 1) - 1 = w0 + x - 1 + 1 by omega] at hrec
      simp only [attemptLoop, if_pos (show 0 < x by omega), hfire, Bool.false_eq_true,
        if_neg, hcl]
      refine ⟨hrec.1, ?_⟩
      simp [attemptCount, List.countP_cons, isAttemptEv,
        show (attemptLoop t (fun i => decide (j + w0 ≤ i)) g (x + 1)
          (w0 + x - 1 + 1) (some (causeOf (t x)))).2.countP isAttemptEv = j + 1 - (x + 1)
          from hrec.2]
      omega

theorem permitCount_attemptLoop (t : Nat → TransportOutcome) (cancel : Nat → Bool) :
    ∀ (f a w : Nat) (le : Option Cause),
      permitCount (attemptLoop t cancel f a w le).2 = 0 := by
  intro f
  induction f with
  | zero => intro a w le; simp [attemptLoop, permitCount]
  | succ g ih =>
    intro a w le
    by_cases ha : 0 < a
    · by_cases hcw : cancel w = true
      · simp [attemptLoop, ha, hcw, permitCount, List.countP_cons, isPermitEv]
      · rcases hcl : classify (t a) with ⟨s, b⟩ | ⟨s, b⟩ | c <;>
          simp [attemptLoop, ha, hcw, hcl, permitCount, List.countP_cons, isPermitEv,
            show ∀ le', (attemptLoop t cancel g (a + 1) (w + 1) le').2.countP isPermitEv = 0
              from fun le' => ih (a + 1) (w + 1) le']
    · rcases hcl : classify (t a) with ⟨s, b⟩ | ⟨s, b⟩ | c <;>
        simp [attemptLoop, ha, hcl, permitCount, List.countP_cons, isPermitEv,
          show ∀ le', (attemptLoop t cancel g (a + 1) w le').2.countP isPermitEv = 0
            from fun le' => ih (a + 1) w le']

/-- With a token present and a cancellation signal that does not fire
at the permit wait, `doRequest` is the retry loop with a possible
permit-wait event in front. -/
theorem doRequest_eq_loop (c : Client) (htok : c.bearerToken ≠ "")
    (cancel : Nat → Bool) (hc0 : cancel 0 = false)
    (transport : Nat → TransportOutcome) :
    doRequest c cancel transport =
      ((attemptLoop transport cancel (c.maxRetries + 1).toNat 0
          (if c.hasLimiter then 1 else 0) none).1,
        (if c.hasLimiter then [Ev.permitWait] else []) ++
          (attemptLoop transport cancel (c.maxRetries + 1).toNat 0
            (if c.hasLimiter then 1 else 0) none).2) := by
  unfold doRequest
  cases hl : c.hasLimiter <;> simp [htok, hc0, hl]

theorem attemptCount_after_permit (b : Bool) (evs : List Ev) :
    attemptCount ((if b then [Ev.permitWait] else []) ++ evs) = attemptCount evs := by
  cases b <;> simp [attemptCount, List.countP_cons, List.countP_append, isAttemptEv]

theorem backoffSecs_after_permit (b : Bool) (evs : List Ev) :
    backoffSecs ((if b then [Ev.permitWait] else []) ++ evs) = backoffSecs evs := by
  cases b <;> simp [backoffSecs, List.filterMap_append, backoffSec?]

/-! ### Claim theorems for the request executor -/

/-- C1: with `maxRetries = R ≥ 0` and a non-empty bearer token, if the
transport returns a retryable outcome on every attempt, `doRequest`
issues exactly `R+1` physical attempts and returns the exhaustion
error wrapping the last underlying cause; if the transport first
succeeds with HTTP 200 on 0-based attempt `k ≤ R`, it issues exactly
`k+1` attempts and returns the response. -/
theorem doRequest_retry_attempts (c : Client) (htok : c.bearerToken ≠ "")
    (hR : 0 ≤ c.maxRetries) (cancel : Nat → Bool) (hc : ∀ i, cancel i = false)
    (transport : Nat → TransportOutcome) :
    ((∀ i, isRetryOut (transport i) = true) →
      (doRequest c cancel transport).1 =
        .error (.exhausted (some (causeOf (transport c.maxRetries.toNat)))) ∧
      attemptCount (doRequest c cancel transport).2 = c.maxRetries.toNat + 1) ∧
    (∀ (k : Nat) (b : String), (k : Int) ≤ c.maxRetries →
      (∀ i, i < k → isRetryOut (transport i) = true) →
      transport k = .resp 200 b →
      (doRequest c cancel transport).1 = .ok (200, b) ∧
      attemptCount (doRequest c cancel transport).2 = k + 1) := by
  have hfuel : (c.maxRetries + 1).toNat = c.maxRetries.toNat + 1 := by omega
  rw [doRequest_eq_loop c htok cancel (hc 0) transport, hfuel]
  constructor
  · intro ht
    rw [attemptLoop_exhaust transport cancel hc (c.maxRetries.toNat + 1) 0
      (if c.hasLimiter then 1 else 0) none (fun i => by simpa using ht i)]
    refine ⟨by simp [lastCauseAfter], ?_⟩
    simp [attemptCount_after_permit, attemptCount_trailTrace]
  · intro k b hk hpre hsucc
    rw [attemptLoop_success transport cancel hc k (c.maxRetries.toNat + 1) 0
      (if c.hasLimiter then 1 else 0) none b (by omega)
      (fun i hi => by simpa using hpre i hi) (by simpa using hsucc)]
    refine ⟨rfl, ?_⟩
    simp [attemptCount_after_permit, attemptCount_trailTrace]

/-- Witness for C1 at a concrete client and transports. -/
theorem doRequest_retry_attempts_witness :
    ((doRequest { maxRetries := 2, rateLimit := 0, hasLimiter := false, bearerToken := "tok" }
        (fun _ => false) (fun _ => .resp 503 "busy")).1 =
      .error (.exhausted (some (.http 503))) ∧
      attemptCount (doRequest
        { maxRetries := 2, rateLimit := 0, hasLimiter := false, bearerToken := "tok" }
        (fun _ => false) (fun _ => .resp 503 "busy")).2 = 3) ∧
    ((doRequest { maxRetries := 2, rateLimit := 0, hasLimiter := false, bearerToken := "tok" }
        (fun _ => false) (fun i => if i < 1 then .connError else .resp 200 "ok")).1 =
      .ok (200, "ok") ∧
      attemptCount (doRequest
        { maxRetries := 2, rateLimit := 0, hasLimiter := false, bearerToken := "tok" }
        (fun _ => false) (fun i => if i < 1 then .connError else .resp 200 "ok")).2 = 2) := by
  constructor
  · exact (doRequest_retry_attempts
      { maxRetries := 2, rateLimit := 0, hasLimiter := false, bearerToken := "tok" }
      (by decide) (by decide) (fun _ => false) (fun _ => rfl)
      (fun _ => .resp 503 "busy")).1 (fun i => rfl)
  · exact (doRequest_retry_attempts
      { maxRetries := 2, rateLimit := 0, hasLimiter := false, bearerToken := "tok" }
      (by decide) (by decide) (fun _ => false) (fun _ => rfl)
      (fun i => if i < 1 then .connError else .resp 200 "ok")).2 1 "ok" (by decide)
      (fun i hi => by interval_cases i <;> rfl) rfl

/-- C2: status classification of `doRequest`. Exactly 200 is success
and the response is handed back; 429, 408 and any 5xx are retryable
(with a constantly failing transport the whole retry budget is spent
and the exhaustion error records that status); every other status is
terminal after exactly one attempt, with an error embedding the status
code and the raw body. -/
theorem doRequest_status_classes (c : Client) (htok : c.bearerToken ≠ "")
    (hmr : 1 ≤ c.maxRetries) (cancel : Nat → Bool) (hc : ∀ i, cancel i = false)
    (s : Nat) (b : String) :
    (s = 200 →
      (doRequest c cancel (fun _ => .resp s b)).1 = .ok (200, b) ∧
      attemptCount (doRequest c cancel (fun _ => .resp s b)).2 = 1) ∧
    (retryableStatus s = true →
      (doRequest c cancel (fun _ => .resp s b)).1 =
        .error (.exhausted (some (.http s))) ∧
      attemptCount (doRequest c cancel (fun _ => .resp s b)).2 =
        c.maxRetries.toNat + 1) ∧
    (s ≠ 200 → retryableStatus s = false →
      (doRequest c cancel (fun _ => .resp s b)).1 = .error (.terminal s b) ∧
      attemptCount (doRequest c cancel (fun _ => .resp s b)).2 = 1) ∧
    (retryableStatus s = true ↔ s = 429 ∨ s = 408 ∨ (500 ≤ s ∧ s < 600)) := by
  have hfuel : (c.maxRetries + 1).toNat = c.maxRetries.toNat + 1 := by omega
  rw [doRequest_eq_loop c htok cancel (hc 0) (fun _ => .resp s b), hfuel]
  refine ⟨?_, ?_, ?_, by simp [retryableStatus]; tauto⟩
  · intro h200
    subst h200
    rw [attemptLoop_success (fun _ => .resp 200 b) cancel hc 0 (c.maxRetries.toNat + 1) 0
      (if c.hasLimiter then 1 else 0) none b (by omega) (fun i hi => by omega) rfl]
    exact ⟨rfl, by simp [attemptCount_after_permit, attemptCount_trailTrace]⟩
  · intro hretry
    have hne : s ≠ 200 := by
      intro h; subst h; simp [retryableStatus] at hretry
    have hro : isRetryOut (.resp s b) = true := by
      simp [isRetryOut, classify, hne, hretry]
    rw [attemptLoop_exhaust (fun _ => .resp s b) cancel hc (c.maxRetries.toNat + 1) 0
      (if c.hasLimiter then 1 else 0) none (fun i => hro)]
    refine ⟨by simp [lastCauseAfter, causeOf], ?_⟩
    simp [attemptCount_after_permit, attemptCount_trailTrace]
  · intro hne hnr
    have hcl : classify (.resp s b) = .terminalErr s b := by
      simp [classify, hne, hnr]
    rw [attemptLoop_terminal_first (fun _ => .resp s b) cancel c.maxRetries.toNat
      (if c.hasLimiter then 1 else 0) none s b hcl]
    exact ⟨rfl, by simp [attemptCount_after_permit, attemptCount, List.countP_cons,
      isAttemptEv]⟩

/-- Witness for C2 at status 404 and at status 200. -/
theorem doRequest_status_classes_witness :
    ((doRequest { maxRetries := 3, rateLimit := 0, hasLimiter := false, bearerToken := "tok" }
        (fun _ => false) (fun _ => .resp 404 "not found")).1 =
      .error (.terminal 404 "not found") ∧
      attemptCount (doRequest
        { maxRetries := 3, rateLimit := 0, hasLimiter := false, bearerToken := "tok" }
        (fun _ => false) (fun _ => .resp 404 "not found")).2 = 1) ∧
    ((doRequest { maxRetries := 3, rateLimit := 0, hasLimiter := false, bearerToken := "tok" }
        (fun _ => false) (fun _ => .resp 200 "body")).1 = .ok (200, "body") ∧
      attemptCount (doRequest
        { maxRetries := 3, rateLimit := 0, hasLimiter := false, bearerToken := "tok" }
        (fun _ => false) (fun _ => .resp 200 "body")).2 = 1) := by
  constructor
  · exact (doRequest_status_classes
      { maxRetries := 3, rateLimit := 0, hasLimiter := false, bearerToken := "tok" }
      (by decide) (by decide) (fun _ => false) (fun _ => rfl) 404 "not found").2.2.1
      (by decide) (by decide)
  · exact (doRequest_status_classes
      { maxRetries := 3, rateLimit := 0, hasLimiter := false, bearerToken := "tok" }
      (by decide) (by decide) (fun _ => false) (fun _ => rfl) 200 "body").1 rfl

/-- C4: with an empty bearer token every call fails with the
missing-credential error and an empty event trace — no permit wait and
no physical attempt ever happens. -/
theorem doRequest_missing_token (c : Client) (cancel : Nat → Bool)
    (transport : Nat → TransportOutcome) (h : c.bearerToken = "") :
    doRequest c cancel transport = (.error .missingToken, []) := by
  simp [doRequest, h]

/-- Witness for C4: a client with rate limiting enabled and no token. -/
theorem doRequest_missing_token_witness :
    doRequest { maxRetries := 3, rateLimit := 10, hasLimiter := true, bearerToken := "" }
      (fun _ => false) (fun _ => .resp 200 "x") = (.error .missingToken, []) :=
  doRequest_missing_token _ _ _ rfl

/-- C5: with an always-retryable transport the backoff waits between
consecutive attempts are `1², 2², 3², …` seconds (`k²` between attempt
`k` and `k+1`), and the backoff wait is cancellable: if the signal
first fires during the `j`-th backoff wait (0-based, limiter
disabled), the call returns the cancellation error after exactly `j+1`
attempts — no further attempt is made. -/
theorem doRequest_backoff_quadratic (c : Client) (htok : c.bearerToken ≠ "")
    (hR : 0 ≤ c.maxRetries) (transport : Nat → TransportOutcome)
    (ht : ∀ i, isRetryOut (transport i) = true) :
    (∀ cancel : Nat → Bool, (∀ i, cancel i = false) →
      backoffSecs (doRequest c cancel transport).2 =
        (List.range c.maxRetries.toNat).map (fun k => (k + 1) * (k + 1))) ∧
    (∀ j : Nat, c.hasLimiter = false → (j : Int) < c.maxRetries →
      (doRequest c (fun i => decide (j ≤ i)) transport).1 = .error .cancelled ∧
      attemptCount (doRequest c (fun i => decide (j ≤ i)) transport).2 = j + 1) := by
  have hfuel : (c.maxRetries + 1).toNat = c.maxRetries.toNat + 1 := by omega
  constructor
  · intro cancel hc
    rw [doRequest_eq_loop c htok cancel (hc 0) transport, hfuel]
    rw [attemptLoop_exhaust transport cancel hc (c.maxRetries.toNat + 1) 0
      (if c.hasLimiter then 1 else 0) none (fun i => by simpa using ht i)]
    rw [backoffSecs_after_permit]
    have h1 : backoffSecs (trailTrace 1 c.maxRetries.toNat) =
        (List.range c.maxRetries.toNat).map (fun i => (1 + i) * (1 + i)) :=
      backoffSecs_trailTrace c.maxRetries.toNat 1 (by omega)
    have ht0 : trailTrace 0 (c.maxRetries.toNat + 1) =
        Ev.attempt 0 :: trailTrace 1 c.maxRetries.toNat := by
      simp [trailTrace]
    rw [ht0]
    simp only [backoffSecs, List.filterMap_cons, backoffSec?]
    rw [show List.filterMap backoffSec? (trailTrace 1 c.maxRetries.toNat) =
        backoffSecs (trailTrace 1 c.maxRetries.toNat) from rfl, h1]
    refine List.map_congr_left (fun i _ => by ring_nf)
  · intro j hl hj
    have h0 : classify (transport 0) = .retry (causeOf (transport 0)) :=
      classify_of_retry (ht 0)
    have hd : doRequest c (fun i => decide (j ≤ i)) transport =
        attemptLoop transport (fun i => decide (j ≤ i))
          (c.maxRetries.toNat + 1) 0 0 none := by
      simp [doRequest, htok, hl, hfuel]
    obtain ⟨g, hg⟩ : ∃ g, c.maxRetries.toNat = g + 1 := ⟨c.maxRetries.toNat - 1, by omega⟩
    have hrec := attemptLoop_cancelled transport 0 j ht (g + 1) 1 (some (causeOf (transport 0)))
      (by omega) (by omega) (by omega)
    rw [hd, hg]
    have hstep : attemptLoop transport (fun i => decide (j ≤ i)) (g + 1 + 1) 0 0 none =
        ((attemptLoop transport (fun i => decide (j ≤ i)) (g + 1) 1 0
            (some (causeOf (transport 0)))).1,
          Ev.attempt 0 :: (attemptLoop transport (fun i => decide (j ≤ i)) (g + 1) 1 0
            (some (causeOf (transport 0)))).2) := by
      simp [attemptLoop, h0]
    rw [hstep]
    have hj0 : (fun i => decide (j + 0 ≤ i)) = (fun i => decide (j ≤ i)) := rfl
    rw [hj0] at hrec
    refine ⟨hrec.1, ?_⟩
    simp [attemptCount, List.countP_cons, isAttemptEv,
      show (attemptLoop transport (fun i => decide (j ≤ i)) (g + 1) 1 0
        (some (causeOf (transport 0)))).2.countP isAttemptEv = j + 1 - 1 from hrec.2]

/-- Witness for C5: R = 2, backoffs [1, 4]; cancellation at the second
backoff wait aborts after 2 attempts. -/
theorem doRequest_backoff_quadratic_witness :
    backoffSecs (doRequest
      { maxRetries := 2, rateLimit := 0, hasLimiter := false, bearerToken := "tok" }
      (fun _ => false) (fun _ => .connError)).2 = [1, 4] ∧
    ((doRequest { maxRetries := 2, rateLimit := 0, hasLimiter := false, bearerToken := "tok" }
        (fun i => decide (1 ≤ i)) (fun _ => .connError)).1 = .error .cancelled ∧
      attemptCount (doRequest
        { maxRetries := 2, rateLimit := 0, hasLimiter := false, bearerToken := "tok" }
        (fun i => decide (1 ≤ i)) (fun _ => .connError)).2 = 2) := by
  constructor
  · exact ((doRequest_backoff_quadratic
      { maxRetries := 2, rateLimit := 0, hasLimiter := false, bearerToken := "tok" }
      (by decide) (by decide) (fun _ => .connError) (fun _ => rfl)).1
      (fun _ => false) (fun _ => rfl)).trans (by decide)
  · exact (doRequest_backoff_quadratic
      { maxRetries := 2, rateLimit := 0, hasLimiter := false, bearerToken := "tok" }
      (by decide) (by decide) (fun _ => .connError) (fun _ => rfl)).2 1 rfl (by decide)

/-- C3 counterexample: a client with the limiter enabled and
`maxRetries = 1` against a permanently failing transport performs two
physical attempts but only one permit wait, so a permit is *not*
re-acquired for every retried attempt. -/
theorem permit_not_per_attempt_cex :
    attemptCount (doRequest
      { maxRetries := 1, rateLimit := 10, hasLimiter := true, bearerToken := "t" }
      (fun _ => false) (fun _ => .resp 500 "")).2 = 2 ∧
    permitCount (doRequest
      { maxRetries := 1, rateLimit := 10, hasLimiter := true, bearerToken := "t" }
      (fun _ => false) (fun _ => .resp 500 "")).2 = 1 ∧
    ¬ permitCount (doRequest
        { maxRetries := 1, rateLimit := 10, hasLimiter := true, bearerToken := "t" }
        (fun _ => false) (fun _ => .resp 500 "")).2 =
      attemptCount (doRequest
        { maxRetries := 1, rateLimit := 10, hasLimiter := true, bearerToken := "t" }
        (fun _ => false) (fun _ => .resp 500 "")).2 := by
  refine ⟨rfl, rfl, by decide⟩

/-- C3 amended: when rate limiting is enabled the executor waits for
exactly one pacing permit per logical call, before the first physical
attempt (never again for retried attempts); with the limiter absent no
permit is waited for; and constructing a client whose last configured
rate is 0 or negative leaves the limiter disabled, while a positive
rate enables it. -/
theorem doRequest_permit_once_per_call (c : Client) (htok : c.bearerToken ≠ "")
    (cancel : Nat → Bool) (hc0 : cancel 0 = false)
    (transport : Nat → TransportOutcome) :
    (c.hasLimiter = true →
      permitCount (doRequest c cancel transport).2 = 1 ∧
      (doRequest c cancel transport).2.head? = some .permitWait) ∧
    (c.hasLimiter = false → permitCount (doRequest c cancel transport).2 = 0) ∧
    (∀ (t : String) (n : Int),
      (newClient [.withBearerToken t, .withRateLimit n]).hasLimiter = decide (0 < n)) := by
  refine ⟨?_, ?_, ?_⟩
  · intro hl
    rw [doRequest_eq_loop c htok cancel hc0 transport, hl]
    constructor
    · simp [permitCount, List.countP_cons, List.countP_append, isPermitEv,
        show ∀ f a w le, (attemptLoop transport cancel f a w le).2.countP isPermitEv = 0
          from fun f a w le => permitCount_attemptLoop transport cancel f a w le]
    · simp
  · intro hl
    rw [doRequest_eq_loop c htok cancel hc0 transport, hl]
    simpa using permitCount_attemptLoop transport cancel (c.maxRetries + 1).toNat 0 0 none
  · intro t n
    by_cases hn : 0 < n <;> simp [newClient, applyOption, hn]

/-- Witness for amended C3: one permit for two attempts with the
limiter on; rate 0 leaves the limiter off. -/
theorem doRequest_permit_once_per_call_witness :
    (permitCount (doRequest
        { maxRetries := 1, rateLimit := 10, hasLimiter := true, bearerToken := "tk" }
        (fun _ => false) (fun _ => .connError)).2 = 1 ∧
      (doRequest { maxRetries := 1, rateLimit := 10, hasLimiter := true, bearerToken := "tk" }
        (fun _ => false) (fun _ => .connError)).2.head? = some .permitWait) ∧
    (newClient [.withBearerToken "tk", .withRateLimit 0]).hasLimiter = false := by
  constructor
  · exact (doRequest_permit_once_per_call
      { maxRetries := 1, rateLimit := 10, hasLimiter := true, bearerToken := "tk" }
      (by decide) (fun _ => false) rfl (fun _ => .connError)).1 rfl
  · exact ((doRequest_permit_once_per_call
      { maxRetries := 1, rateLimit := 10, hasLimiter := true, bearerToken := "tk" }
      (by decide) (fun _ => false) rfl (fun _ => .connError)).2.2 "tk" 0).trans (by decide)

/-! ### Search parameters and the search URL (part_000 lines 13-17,
client.go lines 514-531) -/

/-- `SearchParams` (part_000 lines 13-17). -/
structure SearchParams where
  query : String
  start : Int
  rows : Int
deriving DecidableEq, Repr

/-- The `url.Values` map built by `Client.buildSearchURL` (client.go
lines 517-528), as an association list: `q` is always set to the query
string, `start` is set only when positive, `rows` is set to the
requested count when positive and to `"10"` otherwise. The final
`Encode` step (line 530) only serialises this map and adds or removes
no parameter. -/
def buildSearchQueryParams (p : SearchParams) : List (String × String) :=
  [("q", p.query)]
    ++ (if 0 < p.start then [("start", toString p.start)] else [])
    ++ (if 0 < p.rows then [("rows", toString p.rows)] else [("rows", "10")])

/-- Lookup of a parameter in the built map. -/
def paramValue (p : SearchParams) (key : String) : Option String :=
  ((buildSearchQueryParams p).find? (fun kv => kv.1 == key)).map (·.2)

/-- C9: the search URL always carries `q` set to the query string,
omits `start` when the start offset is 0, and sets `rows` to the
requested row count when positive and to 10 when non-positive. -/
theorem buildSearchURL_params (p : SearchParams) :
    paramValue p "q" = some p.query ∧
    (p.start = 0 → paramValue p "start" = none) ∧
    (0 < p.rows → paramValue p "rows" = some (toString p.rows)) ∧
    (p.rows ≤ 0 → paramValue p "rows" = some "10") := by
  refine ⟨?_, ?_, ?_, ?_⟩
  · simp [paramValue, buildSearchQueryParams]
  · intro h0
    by_cases hr : 0 < p.rows <;>
      simp [paramValue, buildSearchQueryParams, h0, hr, List.find?_append, List.find?]
  · intro hr
    by_cases hs : 0 < p.start <;>
      simp [paramValue, buildSearchQueryParams, hs, hr, List.find?_append, List.find?]
  · intro hr
    have hr' : ¬ 0 < p.rows := by omega
    by_cases hs : 0 < p.start <;>
      simp [paramValue, buildSearchQueryParams, hs, hr', List.find?_append, List.find?]

/-- Witness for C9 at `start = 0`, `rows = 0` and at `start = 5`,
`rows = 20`. -/
theorem buildSearchURL_params_witness :
    (paramValue { query := "family-name:doe", start := 0, rows := 0 } "q" =
        some "family-name:doe" ∧
      paramValue { query := "family-name:doe", start := 0, rows := 0 } "start" = none ∧
      paramValue { query := "family-name:doe", start := 0, rows := 0 } "rows" =
        some "10") ∧
    paramValue { query := "x", start := 5, rows := 20 } "rows" = some "20" := by
  refine ⟨⟨?_, ?_, ?_⟩, ?_⟩
  · exact (buildSearchURL_params { query := "family-name:doe", start := 0, rows := 0 }).1
  · exact (buildSearchURL_params
      { query := "family-name:doe", start := 0, rows := 0 }).2.1 rfl
  · exact ((buildSearchURL_params
      { query := "family-name:doe", start := 0, rows := 0 }).2.2.2 (by decide))
  · exact ((buildSearchURL_params { query := "x", start := 5, rows := 20 }).2.2.1
      (by decide)).trans (by decide)

/-! ### The search iterator (part_000 lines 188-306) -/

/-- One search hit (part_000 lines 195-197), reduced to the
identifier it carries. -/
structure SearchRecord where
  orcid : String
deriving DecidableEq, Repr

/-- `SearchResult` (part_000 lines 188-193). -/
structure SearchResult where
  numFound : Int
  start : Int
  numRows : Int
  results : List SearchRecord
deriving DecidableEq, Repr

/-- Errors the iterator can record: the cancellation signal observed
already fired (`ctx.Err()`), or a failed page fetch. -/
inductive IterError where
  | cancelled
  | search (msg : String)
deriving DecidableEq, Repr

/-- `SearchIterator` state (part_000 lines 226-234). The client and
context fields are modelled by the `fetch` function and `ctxDone` flag
passed to `next`. -/
structure SearchIterator where
  params : SearchParams
  currentBatch : Option SearchResult
  currentIndex : Int
  totalResults : Int
  err : Option IterError
deriving DecidableEq, Repr

/-- `Client.SearchIter` (part_000 lines 236-243): fresh iterator with
`currentIndex = -1`. -/
def SearchIter (params : SearchParams) : SearchIterator :=
  { params := params, currentBatch := none, currentIndex := -1,
    totalResults := 0, err := none }

/-- The tail of `Next` (part_000 lines 289-290): increment the in-page
index and report whether it is still within the current page. The
`fetches` argument threads how many page fetches this `Next` call
performed. -/
def indexAdvance (si : SearchIterator) (fetches : Nat) :
    Bool × SearchIterator × Nat :=
  let si := { si with currentIndex := si.currentIndex + 1 }
  (decide (si.currentIndex <
      (((si.currentBatch.map (·.results.length)).getD 0 : Nat) : Int)),
    si, fetches)

/-- The fetch block of `Next` (part_000 lines 274-287): issue the
search, on error record it and stop; on success install the page,
record the server total, reset the index; an empty page stops,
otherwise fall through to the index advance. -/
def fetchAdvance (si : SearchIterator)
    (fetch : SearchParams → Except IterError SearchResult) :
    Bool × SearchIterator × Nat :=
  match fetch si.params with
  | .error e => (false, { si with err := some e }, 1)
  | .ok r =>
    let si := { si with
      currentBatch := some r
      totalResults := r.numFound
      currentIndex := -1 }
    if r.results.length = 0 then (false, si, 1)
    else indexAdvance si 1

/-- `SearchIterator.Next` (part_000 lines 250-291). Returns the
has-more flag, the new iterator state, and the number of page fetches
performed by this call. `ctxDone` tells whether the non-blocking check
of the cancellation signal (lines 255-260) observes it already
fired. -/
def SearchIterator.next (si : SearchIterator) (ctxDone : Bool)
    (fetch : SearchParams → Except IterError SearchResult) :
    Bool × SearchIterator × Nat :=
  if si.err.isSome then (false, si, 0)
  else if ctxDone then (false, { si with err := some .cancelled }, 0)
  else
    match si.currentBatch with
    | none => fetchAdvance si fetch
    | some b =>
      if (b.results.length : Int) - 1 ≤ si.currentIndex then
        if si.totalResults ≤ si.params.start + si.params.rows then (false, si, 0)
        else
          fetchAdvance
            { si with params :=
                { si.params with start := si.params.start + si.params.rows } } fetch
      else indexAdvance si 0

/-- `SearchIterator.Value` (part_000 lines 293-298). -/
def SearchIterator.value (si : SearchIterator) : Option SearchRecord :=
  match si.currentBatch with
  | none => none
  | some b =>
    if si.currentIndex < 0 || (b.results.length : Int) ≤ si.currentIndex then none
    else b.results.get? si.currentIndex.toNat

/-- `SearchIterator.Error` (part_000 lines 300-302). -/
def SearchIterator.errorValue (si : SearchIterator) : Option IterError := si.err

/-- `SearchIterator.TotalResults` (part_000 lines 304-306). -/
def SearchIterator.total (si : SearchIterator) : Int := si.totalResults

/-- Drive `n` calls of `Next` (with a live context), recording for
each call the returned flag, the current value and the reported total
after the call, together with the total number of page fetches. -/
def runIter (fetch : SearchParams → Except IterError SearchResult) :
    Nat → SearchIterator → List (Bool × Option SearchRecord × Int) × Nat
  | 0, _ => ([], 0)
  | n+1, si =>
    let step := si.next false fetch
    let rest := runIter fetch n step.2.1
    ((step.1, step.2.1.value, step.2.1.total) :: rest.1, step.2.2 + rest.2)

/-- The mock search endpoint of the C6 scenario: the server reports 25
total results and returns pages of 2 items at offsets 0 and 10 and 1
item at offset 20. -/
def scenarioPage (start : Int) : List SearchRecord :=
  if start = 0 then [⟨"A"⟩, ⟨"B"⟩]
  else if start = 10 then [⟨"C"⟩, ⟨"D"⟩]
  else if start = 20 then [⟨"E"⟩]
  else []

/-- The mock fetch of the C6 scenario. -/
def scenarioFetch (p : SearchParams) : Except IterError SearchResult :=
  .ok { numFound := 25, start := p.start, numRows := p.rows,
        results := scenarioPage p.start }

/-- C6: `Next` fetches a subsequent page only if
`start + requestedRows < totalResults` (judged with the requested page
size), advancing `start` by the requested rows before the fetch; every
call of the fetch block performs exactly one page fetch; and on the
mock server of the scenario (`totalResults = 25`, pages of 2, 2 and 1
items at offsets 0, 10 and 20) the iterator with `rows = 10` yields
exactly 5 records across exactly 3 page fetches and then reports no
more items, with the reported total reading 25 throughout. -/
theorem searchIterator_pagination :
    (∀ (si : SearchIterator) (b : SearchResult)
        (fetch : SearchParams → Except IterError SearchResult),
      si.err = none → si.currentBatch = some b →
      (b.results.length : Int) - 1 ≤ si.currentIndex →
      si.totalResults ≤ si.params.start + si.params.rows →
      si.next false fetch = (false, si, 0)) ∧
    (∀ (si : SearchIterator) (b : SearchResult)
        (fetch : SearchParams → Except IterError SearchResult),
      si.err = none → si.currentBatch = some b →
      (b.results.length : Int) - 1 ≤ si.currentIndex →
      si.params.start + si.params.rows < si.totalResults →
      si.next false fetch =
        fetchAdvance
          { si with params :=
              { si.params with start := si.params.start + si.params.rows } } fetch) ∧
    (∀ (si : SearchIterator) (fetch : SearchParams → Except IterError SearchResult),
      (fetchAdvance si fetch).2.2 = 1) ∧
    runIter scenarioFetch 7 (SearchIter { query := "q", start := 0, rows := 10 }) =
      ([(true, some ⟨"A"⟩, 25), (true, some ⟨"B"⟩, 25), (true, some ⟨"C"⟩, 25),
        (true, some ⟨"D"⟩, 25), (true, some ⟨"E"⟩, 25), (false, some ⟨"E"⟩, 25),
        (false, some ⟨"E"⟩, 25)], 3) := by
  refine ⟨?_, ?_, ?_, ?_⟩
  · intro si b fetch he hb hi hle
    simp [SearchIterator.next, he, hb, hi, hle]
  · intro si b fetch he hb hi hlt
    simp [SearchIterator.next, he, hb, hi, show
      ¬ si.totalResults ≤ si.params.start + si.params.rows by omega]
  · intro si fetch
    rcases hf : fetch si.params with e | r
    · simp [fetchAdvance, hf]
    · by_cases hz : r.results.length = 0 <;> simp [fetchAdvance, hf, hz, indexAdvance]
  · decide

/-- Witness for the universally quantified parts of C6: a cursor at
the end of its page with `start + rows ≥ total` stops without
fetching, and one with `start + rows < total` advances `start` and
enters the fetch block. -/
theorem searchIterator_pagination_witness :
    ({ params := { query := "q", start := 20, rows := 10 },
        currentBatch := some { numFound := 25, start := 20, numRows := 10, results := [⟨"E"⟩] },
        currentIndex := 0, totalResults := 25, err := none } : SearchIterator).next false scenarioFetch =
      (false,
        { params := { query := "q", start := 20, rows := 10 },
          currentBatch := some { numFound := 25, start := 20, numRows := 10, results := [⟨"E"⟩] },
          currentIndex := 0, totalResults := 25, err := none }, 0) ∧
    ({ params := { query := "q", start := 0, rows := 10 },
        currentBatch := some { numFound := 25, start := 0, numRows := 10, results := [⟨"A"⟩, ⟨"B"⟩] },
        currentIndex := 1, totalResults := 25, err := none } : SearchIterator).next false scenarioFetch =
      fetchAdvance
        { params := { query := "q", start := 10, rows := 10 },
          currentBatch := some { numFound := 25, start := 0, numRows := 10, results := [⟨"A"⟩, ⟨"B"⟩] },
          currentIndex := 1, totalResults := 25, err := none } scenarioFetch := by
  constructor
  · exact (searchIterator_pagination).1
      { params := { query := "q", start := 20, rows := 10 },
        currentBatch := some { numFound := 25, start := 20, numRows := 10, results := [⟨"E"⟩] },
        currentIndex := 0, totalResults := 25, err := none }
      { numFound := 25, start := 20, numRows := 10, results := [⟨"E"⟩] }
      scenarioFetch rfl rfl (by decide) (by decide)
  · exact (searchIterator_pagination).2.1
      { params := { query := "q", start := 0, rows := 10 },
        currentBatch := some { numFound := 25, start := 0, numRows := 10, results := [⟨"A"⟩, ⟨"B"⟩] },
        currentIndex := 1, totalResults := 25, err := none }
      { numFound := 25, start := 0, numRows := 10, results := [⟨"A"⟩, ⟨"B"⟩] }
      scenarioFetch rfl rfl (by decide) (by decide)

/-- C7: iterator failure is sticky. A `Next` call on an iterator with
a recorded error returns "no more items" at once, performs no fetch,
leaves the state untouched (so `Error` keeps returning the recorded
cause); and a `Next` call that observes the cancellation signal
already fired records the cancellation error and returns "no more
items" with no fetch. -/
theorem searchIterator_sticky_failure :
    (∀ (si : SearchIterator) (ctxDone : Bool)
        (fetch : SearchParams → Except IterError SearchResult) (e : IterError),
      si.err = some e →
      si.next ctxDone fetch = (false, si, 0) ∧
      (si.next ctxDone fetch).2.1.errorValue = some e) ∧
    (∀ (si : SearchIterator) (fetch : SearchParams → Except IterError SearchResult),
      si.err = none →
      si.next true fetch = (false, { si with err := some .cancelled }, 0)) := by
  constructor
  · intro si ctxDone fetch e he
    have h1 : si.next ctxDone fetch = (false, si, 0) := by
      simp [SearchIterator.next, he]
    exact ⟨h1, by simp [h1, SearchIterator.errorValue, he]⟩
  · intro si fetch he
    simp [SearchIterator.next, he]

/-- Witness for C7: an iterator with a recorded fetch failure
short-circuits, and a fresh iterator whose signal already fired
records `cancelled`. -/
theorem searchIterator_sticky_failure_witness :
    (({ params := { query := "q", start := 0, rows := 10 },
        currentBatch := none, currentIndex := -1, totalResults := 0,
        err := some (.search "boom") } : SearchIterator).next false scenarioFetch =
      (false,
        { params := { query := "q", start := 0, rows := 10 },
          currentBatch := none, currentIndex := -1, totalResults := 0,
          err := some (.search "boom") }, 0) ∧
      (({ params := { query := "q", start := 0, rows := 10 },
          currentBatch := none, currentIndex := -1, totalResults := 0,
          err := some (.search "boom") } : SearchIterator).next false
            scenarioFetch).2.1.errorValue = some (.search "boom")) ∧
    (SearchIter { query := "q", start := 0, rows := 10 }).next true scenarioFetch =
      (false,
        { SearchIter { query := "q", start := 0, rows := 10 } with
          err := some .cancelled }, 0) := by
  constructor
  · exact (searchIterator_sticky_failure).1
      { params := { query := "q", start := 0, rows := 10 },
        currentBatch := none, currentIndex := -1, totalResults := 0,
        err := some (.search "boom") } false scenarioFetch (.search "boom") rfl
  · exact (searchIterator_sticky_failure).2
      (SearchIter { query := "q", start := 0, rows := 10 }) scenarioFetch rfl

/-- C8: when a freshly fetched page has zero items the iterator stops:
the fetch block returns "no more items" after installing the empty
page, and on a fresh iterator whose first page comes back empty, the
first `Next` returns "no more items" after exactly 1 page fetch with
no record to yield, whatever total the server reported. -/
theorem searchIterator_empty_page_exhausts :
    (∀ (si : SearchIterator)
        (fetch : SearchParams → Except IterError SearchResult) (r : SearchResult),
      fetch si.params = .ok r → r.results = [] →
      fetchAdvance si fetch =
        (false,
          { si with
            currentBatch := some r
            totalResults := r.numFound
            currentIndex := -1 }, 1)) ∧
    (∀ (params : SearchParams)
        (fetch : SearchParams → Except IterError SearchResult) (r : SearchResult),
      fetch params = .ok r → r.results = [] →
      (SearchIter params).next false fetch =
        (false,
          { SearchIter params with
            currentBatch := some r
            totalResults := r.numFound
            currentIndex := -1 }, 1) ∧
      ((SearchIter params).next false fetch).2.1.value = none) := by
  have hfa : ∀ (si : SearchIterator)
      (fetch : SearchParams → Except IterError SearchResult) (r : SearchResult),
      fetch si.params = .ok r → r.results = [] →
      fetchAdvance si fetch =
        (false,
          { si with
            currentBatch := some r
            totalResults := r.numFound
            currentIndex := -1 }, 1) := by
    intro si fetch r hf hr
    simp [fetchAdvance, hf, hr]
  refine ⟨hfa, ?_⟩
  intro params fetch r hf hr
  have h1 : (SearchIter params).next false fetch =
      (false,
        { SearchIter params with
          currentBatch := some r
          totalResults := r.numFound
          currentIndex := -1 }, 1) := by
    have hnext : (SearchIter params).next false fetch =
        fetchAdvance (SearchIter params) fetch := by
      simp [SearchIterator.next, SearchIter]
    rw [hnext]
    exact hfa (SearchIter params) fetch r hf hr
  refine ⟨h1, ?_⟩
  rw [h1]
  simp [SearchIterator.value]

/-- Witness for C8: a first page with zero items and reported total
25 ends iteration after one fetch with nothing to yield. -/
theorem searchIterator_empty_page_exhausts_witness :
    (SearchIter { query := "q", start := 0, rows := 10 }).next false
      (fun _ => .ok { numFound := 25, start := 0, numRows := 10, results := [] }) =
      (false,
        { SearchIter { query := "q", start := 0, rows := 10 } with
          currentBatch :=
            some { numFound := 25, start := 0, numRows := 10, results := [] }
          totalResults := 25
          currentIndex := -1 }, 1) ∧
    ((SearchIter { query := "q", start := 0, rows := 10 }).next false
      (fun _ =>
        .ok { numFound := 25, start := 0, numRows := 10, results := [] })).2.1.value =
      none := by
  exact (searchIterator_empty_page_exhausts).2 { query := "q", start := 0, rows := 10 }
    (fun _ => .ok { numFound := 25, start := 0, numRows := 10, results := [] })
    { numFound := 25, start := 0, numRows := 10, results := [] } rfl rfl

/-! ### Identifier utilities (part_000 lines 344-368)

Go strings are byte slices, so the identifier utilities are embedded
over lists of UTF-8 bytes (`List Nat`): `len`, slicing, `Split`,
`HasPrefix` and `ReplaceAll` are byte operations and are modelled
exactly. `strings.TrimSpace` trims leading and trailing Unicode
White_Space runes; that set is finite, so trimming is modelled exactly
by stripping their UTF-8 encodings from the ends (Go rejects overlong
encodings, so a whitespace rune occurs at an end exactly when its
canonical encoding does). `strings.ToUpper` is modelled byte-wise on
the ASCII letters, which is Go's exact mapping on ASCII data; bytes of
non-ASCII runes are left unchanged. -/

/-- The UTF-8 bytes of an ASCII string; code points below 128 encode
as themselves, so for ASCII literals this is the byte content of the
Go string. -/
def asciiBytes (s : String) : List Nat := s.toList.map Char.toNat

/-- The UTF-8 encodings of all Unicode White_Space code points, the
set `unicode.IsSpace` accepts: U+0009-U+000D, U+0020, U+0085, U+00A0,
U+1680, U+2000-U+200A, U+2028, U+2029, U+202F, U+205F, U+3000. -/
def whitespaceSeqs : List (List Nat) :=
  [[0x09], [0x0A], [0x0B], [0x0C], [0x0D], [0x20],
   [0xC2, 0x85], [0xC2, 0xA0],
   [0xE1, 0x9A, 0x80],
   [0xE2, 0x80, 0x80], [0xE2, 0x80, 0x81], [0xE2, 0x80, 0x82],
   [0xE2, 0x80, 0x83], [0xE2, 0x80, 0x84], [0xE2, 0x80, 0x85],
   [0xE2, 0x80, 0x86], [0xE2, 0x80, 0x87], [0xE2, 0x80, 0x88],
   [0xE2, 0x80, 0x89], [0xE2, 0x80, 0x8A],
   [0xE2, 0x80, 0xA8], [0xE2, 0x80, 0xA9], [0xE2, 0x80, 0xAF],
   [0xE2, 0x81, 0x9F],
   [0xE3, 0x80, 0x80]]

/-- One step of `TrimSpace` on the left: if the string starts with the
encoding of a whitespace rune, drop it (at most one element of
`whitespaceSeqs` can be a prefix, so `find?` is unambiguous). -/
def stripLeadSpace (l : List Nat) : Option (List Nat) :=
  (whitespaceSeqs.find? (fun p => p.isPrefixOf l)).map (fun p => l.drop p.length)

/-- One step of `TrimSpace` on the right: if the string ends with the
encoding of a whitespace rune, cut it off. -/
def stripTrailSpace (l : List Nat) : Option (List Nat) :=
  (whitespaceSeqs.find? (fun p => p.isSuffixOf l)).map
    (fun p => l.take (l.length - p.length))

/-- Strip whitespace runes from the front while any remains; `fuel`
bounds the number of strips (each strip removes at least one byte, so
the byte count suffices). -/
def trimLeftBytes : Nat → List Nat → List Nat
  | 0, l => l
  | fuel+1, l =>
    match stripLeadSpace l with
    | none => l
    | some lp => trimLeftBytes fuel lp

/-- Strip whitespace runes from the back while any remains. -/
def trimRightBytes : Nat → List Nat → List Nat
  | 0, l => l
  | fuel+1, l =>
    match stripTrailSpace l with
    | none => l
    | some lp => trimRightBytes fuel lp

/-- `strings.TrimSpace`: drop leading, then trailing, whitespace
runes. -/
def trimSpace (l : List Nat) : List Nat :=
  trimRightBytes l.length (trimLeftBytes l.length l)

/-- `strings.Split(l, "/")` over bytes: split on every 0x2F byte,
keeping empty segments, never returning an empty list. -/
def splitSlash : List Nat → List (List Nat)
  | [] => [[]]
  | c :: cs =>
    let r := splitSlash cs
    if c = 0x2F then [] :: r
    else
      match r with
      | [] => [[c]]
      | s :: ss => (c :: s) :: ss

/-- `parts[len(parts)-1]` after splitting on "/". -/
def lastSeg (l : List Nat) : List Nat := (splitSlash l).getLastD []

/-- `ParseOrcidID` (part_000 lines 344-356): trim whitespace; a URL
input (http/https prefix) takes the last path segment; otherwise also
take the last "/"-separated segment. -/
def ParseOrcidID (input : List Nat) : List Nat :=
  let input := trimSpace input
  if (asciiBytes "http://").isPrefixOf input ||
      (asciiBytes "https://").isPrefixOf input then
    let parts := splitSlash input
    if 0 < parts.length then parts.getLastD [] else lastSeg input
  else lastSeg input

/-- `strings.ToUpper` byte-wise on ASCII letters: bytes 97-122 (a-z)
map down by 32, every other byte - including every byte of a
multi-byte rune - is unchanged. On ASCII data this is exactly Go's
mapping; the case mapping of non-ASCII runes is not modelled. -/
def goToUpperByte (b : Nat) : Nat :=
  if 97 <= b && b <= 122 then b - 32 else b

/-- The normalisation step of `FormatOrcidID` (part_000 lines
359-360): parse, strip the hyphen bytes (0x2D), uppercase. -/
def normalizeOrcid (orcid : List Nat) : List Nat :=
  ((ParseOrcidID orcid).filter (fun b => b != 0x2D)).map goToUpperByte

/-- The `%s-%s-%s-%s` formatting of a 16-byte identifier, i.e. the
byte slices `orcid[0:4]`, `orcid[4:8]`, `orcid[8:12]`, `orcid[12:16]`
joined by hyphens (part_000 lines 363-364). -/
def hyphenateOrcid (o : List Nat) : List Nat :=
  o.take 4 ++ 0x2D ::
    ((o.drop 4).take 4 ++ 0x2D :: ((o.drop 8).take 4 ++ 0x2D :: (o.drop 12).take 4))

/-- `FormatOrcidID` (part_000 lines 358-368); `len(orcid) == 16`
counts bytes. -/
def FormatOrcidID (orcid : List Nat) : List Nat :=
  let o := normalizeOrcid orcid
  if o.length = 16 then hyphenateOrcid o else o

/-! ### Lemmas about the byte-string helpers -/

theorem goToUpperByte_not_lower {b : Nat} (h : ¬(97 ≤ b ∧ b ≤ 122)) :
    goToUpperByte b = b := by
  rw [goToUpperByte, if_neg]
  simp only [Bool.and_eq_true, decide_eq_true_eq]
  omega

theorem goToUpperByte_lower {b : Nat} (h : 97 ≤ b ∧ b ≤ 122) :
    goToUpperByte b = b - 32 := by
  rw [goToUpperByte, if_pos]
  simp only [Bool.and_eq_true, decide_eq_true_eq]
  omega

theorem goToUpperByte_idem (b : Nat) :
    goToUpperByte (goToUpperByte b) = goToUpperByte b := by
  by_cases h : 97 ≤ b ∧ b ≤ 122
  · rw [goToUpperByte_lower h, goToUpperByte_not_lower (by omega)]
  · rw [goToUpperByte_not_lower h, goToUpperByte_not_lower h]

theorem eq_of_goToUpperByte_eq {b d : Nat} (hd : d < 65)
    (h : goToUpperByte b = d) : b = d := by
  by_cases hb : 97 ≤ b ∧ b ≤ 122
  · rw [goToUpperByte_lower hb] at h
    omega
  · rwa [goToUpperByte_not_lower hb] at h

theorem splitSlash_ne_nil (l : List Nat) : splitSlash l ≠ [] := by
  cases l with
  | nil => simp [splitSlash]
  | cons c cs =>
    simp only [splitSlash]
    by_cases hc : c = 0x2F
    · simp [hc]
    · rcases h : splitSlash cs with _ | ⟨s, ss⟩ <;> simp [hc, h]

theorem parseOrcidID_eq (l : List Nat) : ParseOrcidID l = lastSeg (trimSpace l) := by
  show (if _ then _ else _) = _
  split
  · simp only [lastSeg]
    rw [if_pos (List.length_pos.mpr (splitSlash_ne_nil _))]
  · rfl

theorem splitSlash_no_slash : ∀ (l : List Nat), 0x2F ∉ l → splitSlash l = [l] := by
  intro l
  induction l with
  | nil => intro _; rfl
  | cons c cs ih =>
    intro h
    have hc : ¬ c = 0x2F := fun e => h (by simp [e])
    have hcs : (0x2F : Nat) ∉ cs := fun m => h (List.mem_cons_of_mem _ m)
    simp [splitSlash, hc, ih hcs]

theorem lastSeg_eq_getLast? (l : List Nat) :
    (splitSlash l).getLast? = some (lastSeg l) := by
  rcases hx : (splitSlash l).getLast? with _ | x
  · exact absurd (List.getLast?_eq_none_iff.mp hx) (splitSlash_ne_nil l)
  · rw [lastSeg, List.getLastD_eq_getLast?, hx]
    rfl

theorem no_slash_splitSlash_getLast :
    ∀ l : List Nat, ∀ seg ∈ (splitSlash l).getLast?, 0x2F ∉ seg := by
  intro l
  induction l with
  | nil =>
    intro seg hseg
    simp [splitSlash] at hseg
    simp [hseg]
  | cons c cs ih =>
    intro seg hseg
    by_cases hc : c = 0x2F
    · rcases hr : splitSlash cs with _ | ⟨s, ss⟩
      · exact absurd hr (splitSlash_ne_nil cs)
      · rw [show splitSlash (c :: cs) = [] :: splitSlash cs by simp [splitSlash, hc],
          hr, List.getLast?_cons_cons, ← hr] at hseg
        exact ih seg hseg
    · rcases hr : splitSlash cs with _ | ⟨s, ss⟩
      · exact absurd hr (splitSlash_ne_nil cs)
      · have hsp : splitSlash (c :: cs) = (c :: s) :: ss := by
          simp [splitSlash, hc, hr]
        rcases ss with _ | ⟨t, ts⟩
        · rw [hsp, List.getLast?_singleton] at hseg
          have hseg2 : seg = c :: s := by simpa using hseg.symm
          subst hseg2
          intro hmem
          rcases List.mem_cons.mp hmem with h1 | h2
          · exact hc h1.symm
          · exact ih s (by rw [hr, List.getLast?_singleton]; rfl) h2
        · rw [hsp, List.getLast?_cons_cons] at hseg
          exact ih seg (by rw [hr, List.getLast?_cons_cons]; exact hseg)

theorem no_slash_lastSeg (l : List Nat) : 0x2F ∉ lastSeg l :=
  no_slash_splitSlash_getLast l (lastSeg l) (lastSeg_eq_getLast? l)

/-! ### Lemmas about trimming -/

theorem whitespaceSeqs_ne_nil : ∀ p ∈ whitespaceSeqs, p ≠ [] := by decide

theorem whitespaceSeqs_len_le : ∀ p ∈ whitespaceSeqs, p.length ≤ 4 := by decide

theorem stripLeadSpace_nil : stripLeadSpace [] = none := by decide

theorem stripTrailSpace_nil : stripTrailSpace [] = none := by decide

theorem stripLeadSpace_length {l lp : List Nat} (h : stripLeadSpace l = some lp) :
    lp.length < l.length := by
  rw [stripLeadSpace] at h
  rcases hf : whitespaceSeqs.find? (fun p => p.isPrefixOf l) with _ | p
  · rw [hf] at h
    exact Option.noConfusion h
  · rw [hf] at h
    have hlp : l.drop p.length = lp := by simpa using h
    have hmem := List.mem_of_find?_eq_some hf
    have hps := List.find?_some hf
    have hpre : p <+: l := List.isPrefixOf_iff_prefix.mp (by simpa using hps)
    have hpos : 0 < p.length := List.length_pos.mpr (whitespaceSeqs_ne_nil p hmem)
    have hle := hpre.length_le
    rw [← hlp, List.length_drop]
    omega

theorem stripTrailSpace_length {l lp : List Nat} (h : stripTrailSpace l = some lp) :
    lp.length < l.length := by
  rw [stripTrailSpace] at h
  rcases hf : whitespaceSeqs.find? (fun p => p.isSuffixOf l) with _ | p
  · rw [hf] at h
    exact Option.noConfusion h
  · rw [hf] at h
    have hlp : l.take (l.length - p.length) = lp := by simpa using h
    have hmem := List.mem_of_find?_eq_some hf
    have hps := List.find?_some hf
    have hsuf : p <:+ l := List.isSuffixOf_iff_suffix.mp (by simpa using hps)
    have hpos : 0 < p.length := List.length_pos.mpr (whitespaceSeqs_ne_nil p hmem)
    have hle := hsuf.length_le
    rw [← hlp, List.length_take]
    omega

theorem trimLeftBytes_length : ∀ (fuel : Nat) (l : List Nat),
    (trimLeftBytes fuel l).length ≤ l.length := by
  intro fuel
  induction fuel with
  | zero => intro l; simp [trimLeftBytes]
  | succ f ih =>
    intro l
    rcases hs : stripLeadSpace l with _ | lp
    · simp [trimLeftBytes, hs]
    · calc (trimLeftBytes (f + 1) l).length = (trimLeftBytes f lp).length := by
            simp [trimLeftBytes, hs]
        _ ≤ lp.length := ih lp
        _ ≤ l.length := le_of_lt (stripLeadSpace_length hs)

theorem trimRightBytes_length : ∀ (fuel : Nat) (l : List Nat),
    (trimRightBytes fuel l).length ≤ l.length := by
  intro fuel
  induction fuel with
  | zero => intro l; simp [trimRightBytes]
  | succ f ih =>
    intro l
    rcases hs : stripTrailSpace l with _ | lp
    · simp [trimRightBytes, hs]
    · calc (trimRightBytes (f + 1) l).length = (trimRightBytes f lp).length := by
            simp [trimRightBytes, hs]
        _ ≤ lp.length := ih lp
        _ ≤ l.length := le_of_lt (stripTrailSpace_length hs)

theorem trimLeftBytes_of_none {l : List Nat} (h : stripLeadSpace l = none) :
    ∀ fuel, trimLeftBytes fuel l = l := by
  intro fuel
  cases fuel with
  | zero => rfl
  | succ f => simp [trimLeftBytes, h]

theorem trimRightBytes_of_none {l : List Nat} (h : stripTrailSpace l = none) :
    ∀ fuel, trimRightBytes fuel l = l := by
  intro fuel
  cases fuel with
  | zero => rfl
  | succ f => simp [trimRightBytes, h]

theorem trimLeftBytes_eq_of_length {fuel : Nat} {l : List Nat}
    (h : (trimLeftBytes fuel l).length = l.length) : trimLeftBytes fuel l = l := by
  cases fuel with
  | zero => rfl
  | succ f =>
    rcases hs : stripLeadSpace l with _ | lp
    · simp [trimLeftBytes, hs]
    · exfalso
      have h1 : (trimLeftBytes (f + 1) l).length ≤ lp.length := by
        rw [show trimLeftBytes (f + 1) l = trimLeftBytes f lp by
          simp [trimLeftBytes, hs]]
        exact trimLeftBytes_length f lp
      have h2 := stripLeadSpace_length hs
      omega

theorem trimSpace_eq_of_strips {u : List Nat} (h1 : stripLeadSpace u = none)
    (h2 : stripTrailSpace u = none) : trimSpace u = u := by
  rw [trimSpace, trimLeftBytes_of_none h1, trimRightBytes_of_none h2]

theorem trim_fix_strips {u : List Nat} (h : trimSpace u = u) :
    stripLeadSpace u = none ∧ stripTrailSpace u = none := by
  have hlen : (trimSpace u).length = u.length := by rw [h]
  have hml : (trimLeftBytes u.length u).length = u.length := by
    have ha : (trimSpace u).length ≤ (trimLeftBytes u.length u).length :=
      trimRightBytes_length u.length (trimLeftBytes u.length u)
    have hb := trimLeftBytes_length u.length u
    omega
  have hm : trimLeftBytes u.length u = u := trimLeftBytes_eq_of_length hml
  constructor
  · rcases hs : stripLeadSpace u with _ | u1
    · rfl
    · exfalso
      have hne : u ≠ [] := by
        rintro rfl
        rw [stripLeadSpace_nil] at hs
        exact Option.noConfusion hs
      obtain ⟨n, hn⟩ : ∃ n, u.length = n + 1 :=
        ⟨u.length - 1, by
          rcases u with _ | ⟨a, m⟩
          · exact absurd rfl hne
          · simp⟩
      have hml2 : (trimLeftBytes u.length u).length ≤ u1.length := by
        rw [hn, show trimLeftBytes (n + 1) u = trimLeftBytes n u1 by
          simp [trimLeftBytes, hs]]
        exact trimLeftBytes_length n u1
      have := stripLeadSpace_length hs
      omega
  · rcases hs : stripTrailSpace u with _ | u1
    · rfl
    · exfalso
      have hne : u ≠ [] := by
        rintro rfl
        rw [stripTrailSpace_nil] at hs
        exact Option.noConfusion hs
      obtain ⟨n, hn⟩ : ∃ n, u.length = n + 1 :=
        ⟨u.length - 1, by
          rcases u with _ | ⟨a, m⟩
          · exact absurd rfl hne
          · simp⟩
      have htr : trimSpace u = trimRightBytes u.length u := by rw [trimSpace, hm]
      have hml2 : (trimSpace u).length ≤ u1.length := by
        rw [htr, hn, show trimRightBytes (n + 1) u = trimRightBytes n u1 by
          simp [trimRightBytes, hs]]
        exact trimRightBytes_length n u1
      have := stripTrailSpace_length hs
      omega

/-! ### The hyphenated form shares its first and last four bytes with
the core, so whitespace stripping treats them alike (every whitespace
encoding has at most 4 bytes) -/

theorem isPrefixOf_congr_take {p v u : List Nat} (hp : p.length ≤ 4)
    (h : v.take 4 = u.take 4) : p.isPrefixOf v = p.isPrefixOf u := by
  rw [Bool.eq_iff_iff, List.isPrefixOf_iff_prefix, List.isPrefixOf_iff_prefix,
    List.prefix_iff_eq_take, List.prefix_iff_eq_take]
  have hv : List.take p.length v = List.take p.length u := by
    have e : p.length ⊓ 4 = p.length := by omega
    rw [← e, ← List.take_take p.length 4 v, ← List.take_take p.length 4 u, h]
  rw [hv]

theorem isSuffixOf_congr_take {p v u : List Nat} (hp : p.length ≤ 4)
    (h : v.reverse.take 4 = u.reverse.take 4) :
    p.isSuffixOf v = p.isSuffixOf u := by
  rw [Bool.eq_iff_iff, List.isSuffixOf_iff_suffix, List.isSuffixOf_iff_suffix,
    ← List.reverse_prefix, ← List.reverse_prefix,
    List.prefix_iff_eq_take, List.prefix_iff_eq_take, List.length_reverse]
  have hv : List.take p.length v.reverse = List.take p.length u.reverse := by
    have e : p.length ⊓ 4 = p.length := by omega
    rw [← e, ← List.take_take p.length 4 v.reverse,
      ← List.take_take p.length 4 u.reverse, h]
  rw [hv]

theorem stripLeadSpace_none_congr {v u : List Nat} (h : v.take 4 = u.take 4)
    (hu : stripLeadSpace u = none) : stripLeadSpace v = none := by
  rw [stripLeadSpace, Option.map_eq_none', List.find?_eq_none] at hu ⊢
  intro p hp
  have := hu p hp
  simp only at this ⊢
  rw [isPrefixOf_congr_take (whitespaceSeqs_len_le p hp) h]
  exact this

theorem stripTrailSpace_none_congr {v u : List Nat}
    (h : v.reverse.take 4 = u.reverse.take 4)
    (hu : stripTrailSpace u = none) : stripTrailSpace v = none := by
  rw [stripTrailSpace, Option.map_eq_none', List.find?_eq_none] at hu ⊢
  intro p hp
  have := hu p hp
  simp only at this ⊢
  rw [isSuffixOf_congr_take (whitespaceSeqs_len_le p hp) h]
  exact this

theorem take4_hyphenateOrcid {u : List Nat} (h16 : u.length = 16) :
    (hyphenateOrcid u).take 4 = u.take 4 := by
  rw [hyphenateOrcid, List.take_append_eq_append_take]
  have hlen : (u.take 4).length = 4 := by rw [List.length_take]; omega
  rw [hlen]
  simp [List.take_take]

theorem revtake4_hyphenateOrcid {u : List Nat} (h16 : u.length = 16) :
    (hyphenateOrcid u).reverse.take 4 = u.reverse.take 4 := by
  have h12 : (u.drop 12).take 4 = u.drop 12 :=
    List.take_of_length_le (by simp [h16])
  have hl : (u.drop 12).reverse.length = 4 := by
    rw [List.length_reverse]
    simp [h16]
  have hv : hyphenateOrcid u =
      (u.take 4 ++ 0x2D :: ((u.drop 4).take 4 ++ 0x2D ::
        ((u.drop 8).take 4 ++ [0x2D]))) ++ u.drop 12 := by
    rw [hyphenateOrcid, h12]
    simp
  rw [hv, List.reverse_append, List.take_append_eq_append_take, hl,
    List.take_of_length_le (le_of_eq hl)]
  conv_rhs =>
    rw [← List.take_append_drop 12 u, List.reverse_append,
      List.take_append_eq_append_take, hl,
      List.take_of_length_le (le_of_eq hl)]
  simp

theorem trimSpace_hyphenateOrcid {u : List Nat} (h16 : u.length = 16)
    (ht : trimSpace u = u) :
    trimSpace (hyphenateOrcid u) = hyphenateOrcid u := by
  obtain ⟨hl, hr⟩ := trim_fix_strips ht
  exact trimSpace_eq_of_strips
    (stripLeadSpace_none_congr (take4_hyphenateOrcid h16) hl)
    (stripTrailSpace_none_congr (revtake4_hyphenateOrcid h16) hr)

/-! ### Facts about the normalised identifier -/

theorem no_slash_normalizeOrcid (s : List Nat) : 0x2F ∉ normalizeOrcid s := by
  intro hmem
  rw [normalizeOrcid] at hmem
  obtain ⟨b, hbmem, hbeq⟩ := List.mem_map.mp hmem
  have hb : b = 0x2F := eq_of_goToUpperByte_eq (by omega) hbeq
  subst hb
  have hp := List.mem_of_mem_filter hbmem
  rw [parseOrcidID_eq] at hp
  exact no_slash_lastSeg (trimSpace s) hp

theorem no_hyphen_normalizeOrcid (s : List Nat) : 0x2D ∉ normalizeOrcid s := by
  intro hmem
  rw [normalizeOrcid] at hmem
  obtain ⟨b, hbmem, hbeq⟩ := List.mem_map.mp hmem
  have hb : b = 0x2D := eq_of_goToUpperByte_eq (by omega) hbeq
  subst hb
  have := List.of_mem_filter hbmem
  simp at this

theorem map_goToUpperByte_normalizeOrcid (s : List Nat) :
    (normalizeOrcid s).map goToUpperByte = normalizeOrcid s := by
  rw [normalizeOrcid, List.map_map]
  exact List.map_congr_left (fun b _ => goToUpperByte_idem b)

theorem parseOrcidID_of_clean {u : List Nat} (htrim : trimSpace u = u)
    (hs : 0x2F ∉ u) : ParseOrcidID u = u := by
  rw [parseOrcidID_eq, htrim, lastSeg, splitSlash_no_slash u hs,
    List.getLastD_cons, List.getLastD_nil]

theorem normalizeOrcid_of_normal {u : List Nat}
    (htrim : trimSpace u = u) (hs : 0x2F ∉ u) (hh : 0x2D ∉ u)
    (hup : u.map goToUpperByte = u) : normalizeOrcid u = u := by
  rw [normalizeOrcid, parseOrcidID_of_clean htrim hs,
    List.filter_eq_self.mpr (fun b hb => by
      simpa using (fun e : b = 0x2D => hh (e ▸ hb))), hup]

/-! ### Facts about the hyphenated form -/

theorem hyphenate_decomp {u : List Nat} (h16 : u.length = 16) :
    u.take 4 ++ ((u.drop 4).take 4 ++ ((u.drop 8).take 4 ++ (u.drop 12).take 4)) =
      u := by
  have h12 : (u.drop 12).take 4 = u.drop 12 :=
    List.take_of_length_le (by simp [h16])
  have e2 : (u.drop 8).take 4 ++ u.drop 12 = u.drop 8 := by
    have := List.take_append_drop 4 (u.drop 8)
    rwa [List.drop_drop] at this
  have e1 : (u.drop 4).take 4 ++ u.drop 8 = u.drop 4 := by
    have := List.take_append_drop 4 (u.drop 4)
    rwa [List.drop_drop] at this
  rw [h12, e2, e1, List.take_append_drop]

theorem filter_hyphenateOrcid {u : List Nat} (h16 : u.length = 16)
    (hh : 0x2D ∉ u) :
    (hyphenateOrcid u).filter (fun b => b != 0x2D) = u := by
  have hfX : ∀ X : List Nat, X ⊆ u → X.filter (fun b => b != 0x2D) = X := by
    intro X hX
    refine List.filter_eq_self.mpr (fun b hb => ?_)
    simpa using (fun e : b = 0x2D => hh (e ▸ hX hb))
  rw [hyphenateOrcid]
  simp only [List.filter_append, List.filter_cons]
  rw [hfX _ (List.take_subset 4 u),
    hfX _ (fun b hb => List.drop_subset 4 u (List.take_subset 4 _ hb)),
    hfX _ (fun b hb => List.drop_subset 8 u (List.take_subset 4 _ hb)),
    hfX _ (fun b hb => List.drop_subset 12 u (List.take_subset 4 _ hb))]
  simp only [show ((0x2D : Nat) != 0x2D) = false by decide, Bool.false_eq_true,
    if_neg, ite_false]
  exact hyphenate_decomp h16

theorem mem_hyphenateOrcid {b : Nat} {u : List Nat} (h : b ∈ hyphenateOrcid u) :
    b ∈ u ∨ b = 0x2D := by
  rw [hyphenateOrcid] at h
  simp only [List.mem_append, List.mem_cons] at h
  rcases h with h | h | h | h | h | h | h
  · exact Or.inl (List.take_subset 4 u h)
  · exact Or.inr h
  · exact Or.inl (List.drop_subset 4 u (List.take_subset 4 _ h))
  · exact Or.inr h
  · exact Or.inl (List.drop_subset 8 u (List.take_subset 4 _ h))
  · exact Or.inr h
  · exact Or.inl (List.drop_subset 12 u (List.take_subset 4 _ h))

theorem formatOrcidID_unfold (w : List Nat) :
    FormatOrcidID w =
      if (normalizeOrcid w).length = 16 then hyphenateOrcid (normalizeOrcid w)
      else normalizeOrcid w := rfl

/-- C10 counterexample: `FormatOrcidID` is not idempotent. The input
`"123456789012345 -"` normalises to the 16-byte string
`"123456789012345 "` (the trailing hyphen is stripped, exposing a
space that survives the initial trim), so one application formats it
as `"1234-5678-9012-345 "`; a second application trims that trailing
space and, now 15 bytes long, returns `"123456789012345"`. -/
theorem formatOrcidID_not_idempotent_cex :
    FormatOrcidID (FormatOrcidID (asciiBytes "123456789012345 -")) ≠
      FormatOrcidID (asciiBytes "123456789012345 -") := by decide

/-- C10 amended: `FormatOrcidID` is idempotent on every input whose
normalised form (last path segment of the whitespace-trimmed input,
hyphen bytes stripped, uppercased) carries no leading or trailing
whitespace rune - in particular on every identifier, URL, or
hyphen-free input with whitespace only at the ends. -/
theorem formatOrcidID_idempotent_of_trimmed (s : List Nat)
    (htrim : trimSpace (normalizeOrcid s) = normalizeOrcid s) :
    FormatOrcidID (FormatOrcidID s) = FormatOrcidID s := by
  have hs : 0x2F ∉ normalizeOrcid s := no_slash_normalizeOrcid s
  have hh : 0x2D ∉ normalizeOrcid s := no_hyphen_normalizeOrcid s
  have hup : (normalizeOrcid s).map goToUpperByte = normalizeOrcid s :=
    map_goToUpperByte_normalizeOrcid s
  by_cases h16 : (normalizeOrcid s).length = 16
  · have hFs : FormatOrcidID s = hyphenateOrcid (normalizeOrcid s) := by
      rw [formatOrcidID_unfold, if_pos h16]
    have htrimv : trimSpace (hyphenateOrcid (normalizeOrcid s)) =
        hyphenateOrcid (normalizeOrcid s) := trimSpace_hyphenateOrcid h16 htrim
    have hsv : 0x2F ∉ hyphenateOrcid (normalizeOrcid s) := by
      intro hmem
      rcases mem_hyphenateOrcid hmem with h | h
      · exact hs h
      · exact absurd h (by decide)
    have hnv : normalizeOrcid (hyphenateOrcid (normalizeOrcid s)) =
        normalizeOrcid s := by
      rw [normalizeOrcid, parseOrcidID_of_clean htrimv hsv,
        filter_hyphenateOrcid h16 hh, hup]
    rw [hFs, formatOrcidID_unfold, hnv, if_pos h16]
  · have hFs : FormatOrcidID s = normalizeOrcid s := by
      rw [formatOrcidID_unfold, if_neg h16]
    rw [hFs, formatOrcidID_unfold,
      normalizeOrcid_of_normal htrim hs hh hup, if_neg h16]

/-- Witness for amended C10 at a full ORCID URL. -/
theorem formatOrcidID_idempotent_witness :
    FormatOrcidID (FormatOrcidID
        (asciiBytes "https://orcid.org/0000-0002-1825-0097")) =
      FormatOrcidID (asciiBytes "https://orcid.org/0000-0002-1825-0097") :=
  formatOrcidID_idempotent_of_trimmed
    (asciiBytes "https://orcid.org/0000-0002-1825-0097") (by decide)

end Orcid
